import Mathlib

/-!
# Verification of the mcech/memory pool allocator

Shallow embedding of src/PoolAllocator.h (namespace mcech::memory).

The C++ code keeps, per element type T and per thread, a cache (class Pool)
holding an atomic head pointer (sentinel) to a singly linked free list of
Nodes.  A Node is a union of the element storage and a next pointer, plus a
back-reference (Node::pool) to the Pool that minted it.

Model choices:
* Addresses are natural numbers; a C++ pointer is an Option Addr
  (none = nullptr).
* The heap of minted cells is a function Addr -> Option Node.
* Each thread's thread_local Pool is identified by the thread id (Nat);
  the sentinel heads are a function Nat -> Option Addr.
* The system allocator is modelled by a fresh-address counter plus event
  logs: sysAllocs records each operator new call as (address, byte count),
  sysFrees each sized operator delete call as (address, byte count), and
  sysFreedCells each unsized operator delete issued by Pool::clear.
* Byte sizes are parametrised by a Layout giving sizeof(T) and sizeof(Node);
  for a concrete instantiation (T = int on LP64) sizeof(T) = 4 and
  sizeof(Node) = 16, since Node is union { T value; Node* next; } followed
  by a Pool* field.
* Undefined behaviour (dereferencing a pointer that is not a live minted
  cell) is modelled by returning none; the sequential operations otherwise
  return some result, with each atomic compare-and-swap succeeding at once
  because no other thread interferes.
-/

namespace PoolModel

/-- A machine address (0 is an ordinary address; nullptr is Option.none). -/
abbrev Addr := Nat

/-- Byte sizes of the element type and of the cell type for one template
instantiation: sizeof(T) and sizeof(Node) (PoolAllocator.h lines 144-153,
Node = union { T value; Node* next; } plus a Pool* back-reference). -/
structure Layout where
  sizeofT : Nat
  sizeofNode : Nat
deriving DecidableEq, Repr

/-- One storage cell (struct PoolAllocator<T>::Node, PoolAllocator.h lines
144-153): the union member next (meaningful while the cell sits in a free
list) and the back-reference pool, here the owning thread id. -/
structure Node where
  next : Option Addr
  pool : Nat
deriving DecidableEq, Repr

/-- Global state: the heap of minted cells, every thread's thread_local
Pool head (the atomic sentinel, PoolAllocator.h line 191), the system
allocator's fresh-address counter, and the system allocator event logs. -/
structure State where
  nodes : Addr → Option Node
  heads : Nat → Option Addr
  nextFresh : Addr
  sysAllocs : List (Addr × Nat)
  sysFrees : List (Addr × Nat)
  sysFreedCells : List Addr

/-- PoolAllocator<T>::allocate(n) (PoolAllocator.h lines 200-219), run by
thread tid with no interference, so the compare-and-swap in the pop
succeeds on its first attempt.
n == 1: load the sentinel; if non-null, pop the head cell and return it;
if null, mint one new cell via operator new(sizeof(Node)), stamp its pool
back-reference with the calling thread's pool, and return it.
n != 1: bypass the cache and call operator new(n * sizeof(Node)).
Returns none on undefined behaviour (popping a dangling head). -/
def allocate (L : Layout) (tid : Nat) (n : Nat) (s : State) :
    Option (Addr × State) :=
  if n = 1 then
    match s.heads tid with
    | some a =>
      match s.nodes a with
      | some nd =>
        some (a, { s with
          heads := fun t => if t = tid then nd.next else s.heads t })
      | none => none
    | none =>
      let a := s.nextFresh
      some (a, { s with
        nodes := fun a' => if a' = a then some ⟨none, tid⟩ else s.nodes a',
        nextFresh := a + 1,
        sysAllocs := (a, L.sizeofNode) :: s.sysAllocs })
  else
    let a := s.nextFresh
    some (a, { s with
      nextFresh := a + 1,
      sysAllocs := (a, n * L.sizeofNode) :: s.sysAllocs })

/-- PoolAllocator<T>::deallocate(p, n) (PoolAllocator.h lines 221-239), run
by thread tid with no interference.  The p == nullptr || n == 0 guard
returns at once.  For n == 1 the cell is pushed onto the cache named by its
own back-reference node->pool (lines 231-233): node->next is set to that
cache's current head and the head is swung to the cell.  The calling thread
tid plays no role in this branch.  For other n the block is released with
the sized operator delete(p, n * sizeof(value_type)) (line 237).
Returns none on undefined behaviour (pushing a pointer that is not a live
minted cell). -/
def deallocate (L : Layout) (tid : Nat) (p : Option Addr) (n : Nat)
    (s : State) : Option State :=
  if p = none ∨ n = 0 then
    some s
  else
    match p with
    | none => some s
    | some a =>
      if n = 1 then
        match s.nodes a with
        | some nd =>
          some { s with
            nodes := fun a' =>
              if a' = a then some ⟨s.heads nd.pool, nd.pool⟩ else s.nodes a',
            heads := fun t => if t = nd.pool then some a else s.heads t }
        | none => none
      else
        some { s with sysFrees := (a, n * L.sizeofT) :: s.sysFrees }

/-- One iteration state of the while loop in Pool::clear (PoolAllocator.h
lines 178-188), with explicit fuel for the unbounded loop: p is the loop
variable; each iteration reads next = p->next, stores next into the
sentinel, releases p with the unsized operator delete, and continues from
next.  Returns none when the fuel runs out or p dangles. -/
def clearLoop (tid : Nat) : Nat → Option Addr → State → Option State
  | _, none, s => some s
  | 0, some _, _ => none
  | fuel + 1, some a, s =>
    match s.nodes a with
    | none => none
    | some nd =>
      clearLoop tid fuel nd.next
        { s with
          heads := fun t => if t = tid then nd.next else s.heads t,
          nodes := fun a' => if a' = a then none else s.nodes a',
          sysFreedCells := a :: s.sysFreedCells }

/-- Pool::clear (PoolAllocator.h lines 178-188): walk the list from the
loaded sentinel, releasing every cell. -/
def poolClear (fuel : Nat) (tid : Nat) (s : State) : Option State :=
  clearLoop tid fuel (s.heads tid) s

/-- Pool::~Pool (PoolAllocator.h lines 161-164): the destructor body is a
single call to clear(). -/
def poolTeardown (fuel : Nat) (tid : Nat) (s : State) : Option State :=
  poolClear fuel tid s

/-- The stateless allocator facade: class PoolAllocator<T> has no
per-instance data members (PoolAllocator.h lines 21-142; the only data is
the static thread_local pool). -/
structure PoolAllocatorInst where
  mk ::
deriving DecidableEq

/-- operator==(lhs, rhs) for two PoolAllocator facade instances
(PoolAllocator.h lines 247-251): the body is return true. -/
def poolAllocatorEq (lhs rhs : PoolAllocatorInst) : Bool :=
  true

/-- The free list hanging from pointer p in state s is exactly the list l
of cell addresses, following the next links.  An inductive derivation
exists only for finite, cycle-free chains. -/
inductive Chain (s : State) : Option Addr → List Addr → Prop
  | nil : Chain s none []
  | cons (a : Addr) (nd : Node) (l : List Addr) :
      s.nodes a = some nd → Chain s nd.next l → Chain s (some a) (a :: l)

/-- The well-formedness used for the round-trip claim: the cell at the head
of thread tid's cache (if any) is a live minted cell whose back-reference
is tid's own pool.  Every reachable state satisfies this, since cells enter
tid's cache only by a push onto the pool named by their back-reference. -/
def headOwned (s : State) (tid : Nat) : Prop :=
  ∀ a, s.heads tid = some a →
    ∃ nd, s.nodes a = some nd ∧ nd.pool = tid

/-- The empty initial state: no minted cells, every cache empty, no system
allocator traffic yet. -/
def s0 : State :=
  { nodes := fun _ => none
    heads := fun _ => none
    nextFresh := 0
    sysAllocs := []
    sysFrees := []
    sysFreedCells := [] }

/-- Concrete layout for T = int on LP64: sizeof(int) = 4,
sizeof(PoolAllocator<int>::Node) = 16 (union of int and an 8-byte pointer,
padded, followed by an 8-byte Pool pointer). -/
def intLayout : Layout :=
  ⟨4, 16⟩

end PoolModel

namespace PoolModel

/-- Unfolding lemma: the hit branch of allocate(1) (PoolAllocator.h lines
205-209): the head cell is popped and the sentinel advances to its next
link. -/
theorem allocate_one_hit (L : Layout) (tid : Nat) (s : State) (a : Addr)
    (nd : Node) (hh : s.heads tid = some a) (hn : s.nodes a = some nd) :
    allocate L tid 1 s =
      some (a, { s with
        heads := fun t => if t = tid then nd.next else s.heads t }) := by
  simp [allocate, hh, hn]

/-- Unfolding lemma: the miss branch of allocate(1) (PoolAllocator.h lines
210-214): one new cell from operator new(sizeof(Node)), back-reference
stamped with the calling thread's pool. -/
theorem allocate_one_miss (L : Layout) (tid : Nat) (s : State)
    (hh : s.heads tid = none) :
    allocate L tid 1 s =
      some (s.nextFresh, { s with
        nodes := fun a' =>
          if a' = s.nextFresh then some ⟨none, tid⟩ else s.nodes a',
        nextFresh := s.nextFresh + 1,
        sysAllocs := (s.nextFresh, L.sizeofNode) :: s.sysAllocs }) := by
  simp [allocate, hh]

/-- Unfolding lemma: the push branch of deallocate(p, 1) (PoolAllocator.h
lines 229-234): the cell's next is set to the head of the cache named by
its back-reference and that cache's head is swung to the cell. -/
theorem deallocate_one_push (L : Layout) (tid : Nat) (s : State) (a : Addr)
    (nd : Node) (hn : s.nodes a = some nd) :
    deallocate L tid (some a) 1 s =
      some { s with
        nodes := fun a' =>
          if a' = a then some ⟨s.heads nd.pool, nd.pool⟩ else s.nodes a',
        heads := fun t => if t = nd.pool then some a else s.heads t } := by
  simp [deallocate, hn]

/-- Unfolding lemma: the bulk branch of allocate(n), n ≠ 1 (PoolAllocator.h
line 218): operator new(n * sizeof(Node)), caches untouched. -/
theorem allocate_bulk (L : Layout) (tid : Nat) (s : State) (n : Nat)
    (hn : n ≠ 1) :
    allocate L tid n s =
      some (s.nextFresh, { s with
        nextFresh := s.nextFresh + 1,
        sysAllocs := (s.nextFresh, n * L.sizeofNode) :: s.sysAllocs }) := by
  simp [allocate, hn]

/-- Unfolding lemma: the bulk branch of deallocate(p, n), p non-null,
n ∉ {0, 1} (PoolAllocator.h line 237): sized
operator delete(p, n * sizeof(value_type)), caches untouched. -/
theorem deallocate_bulk (L : Layout) (tid : Nat) (s : State) (a : Addr)
    (n : Nat) (h0 : n ≠ 0) (h1 : n ≠ 1) :
    deallocate L tid (some a) n s =
      some { s with sysFrees := (a, n * L.sizeofT) :: s.sysFrees } := by
  simp [deallocate, h0, h1]

/-- C4: deallocate(p, n) with p null or n == 0 returns without touching the
caches, the cell heap, or the system allocator: the guard at
PoolAllocator.h lines 224-227 returns the state unchanged. -/
theorem deallocate_null_or_zero_noop (L : Layout) (tid : Nat)
    (p : Option Addr) (n : Nat) (s : State) (h : p = none ∨ n = 0) :
    deallocate L tid p n s = some s := by
  rcases h with h | h
  · simp [deallocate, h]
  · simp [deallocate, h]

theorem deallocate_null_or_zero_noop_witness :
    deallocate intLayout 0 none 1 s0 = some s0 :=
  deallocate_null_or_zero_noop intLayout 0 none 1 s0 (Or.inl rfl)

/-- C8: operator== between two PoolAllocator facade instances evaluates to
true for every pair of instances; the facade is stateless, so the result
does not depend on any thread or cache state (PoolAllocator.h
lines 247-251). -/
theorem poolAllocatorEq_always_true (lhs rhs : PoolAllocatorInst) :
    poolAllocatorEq lhs rhs = true :=
  rfl

/-- C10: allocate(0) takes the bulk branch (0 ≠ 1), asks the system
allocator for 0 * sizeof(Node) bytes, leaves every cache head and every
minted cell untouched, creates no back-referenced cell, and returns the
address the system allocator yields (PoolAllocator.h lines 200-219). -/
theorem allocate_zero_bulk (L : Layout) (tid : Nat) (s : State) :
    ∃ p s', allocate L tid 0 s = some (p, s') ∧
      s'.heads = s.heads ∧
      s'.nodes = s.nodes ∧
      s'.sysAllocs = (p, 0 * L.sizeofNode) :: s.sysAllocs ∧
      s'.sysFrees = s.sysFrees ∧
      s'.sysFreedCells = s.sysFreedCells := by
  refine ⟨s.nextFresh,
    { s with nextFresh := s.nextFresh + 1,
             sysAllocs := (s.nextFresh, 0 * L.sizeofNode) :: s.sysAllocs },
    ?_, rfl, rfl, rfl, rfl, rfl⟩
  simp [allocate]

/-- C5: allocate(1) pops from the calling thread's cache.  On a hit the
recycled head cell's storage is returned, the cache head advances to that
cell's next link, other caches and the cell heap are untouched, and the
system allocator is not consulted.  On a miss exactly one new cell is
requested from the system allocator (one operator new of sizeof(Node)
bytes), the calling thread's cache is recorded as the cell's
back-reference, the cache heads are untouched, and the new cell's storage
is returned (PoolAllocator.h lines 200-219). -/
theorem allocate_one_pop_semantics (L : Layout) (tid : Nat) (s : State) :
    (∀ a nd, s.heads tid = some a → s.nodes a = some nd →
      ∃ s', allocate L tid 1 s = some (a, s') ∧
        s'.heads tid = nd.next ∧
        (∀ t, t ≠ tid → s'.heads t = s.heads t) ∧
        s'.nodes = s.nodes ∧
        s'.sysAllocs = s.sysAllocs ∧
        s'.sysFrees = s.sysFrees ∧
        s'.sysFreedCells = s.sysFreedCells) ∧
    (s.heads tid = none →
      ∃ s', allocate L tid 1 s = some (s.nextFresh, s') ∧
        s'.nodes s.nextFresh = some ⟨none, tid⟩ ∧
        (∀ a', a' ≠ s.nextFresh → s'.nodes a' = s.nodes a') ∧
        s'.heads = s.heads ∧
        s'.sysAllocs = (s.nextFresh, L.sizeofNode) :: s.sysAllocs ∧
        s'.sysFrees = s.sysFrees ∧
        s'.sysFreedCells = s.sysFreedCells) := by
  constructor
  · intro a nd hh hn
    refine ⟨_, allocate_one_hit L tid s a nd hh hn, by simp, ?_, rfl, rfl,
      rfl, rfl⟩
    intro t ht
    simp [ht]
  · intro hh
    refine ⟨_, allocate_one_miss L tid s hh, by simp, ?_, rfl, rfl, rfl, rfl⟩
    intro a' ha'
    simp [ha']

/-- Concrete state for witnesses: thread 0's cache holds the single cell at
address 5, a cell minted by thread 0. -/
def sHit : State :=
  { s0 with
    nodes := fun a => if a = 5 then some ⟨none, 0⟩ else none
    heads := fun t => if t = 0 then some 5 else none }

theorem allocate_one_pop_semantics_witness :
    ∃ s', allocate intLayout 0 1 sHit = some (5, s') ∧
      s'.heads 0 = Node.next ⟨none, 0⟩ ∧
      (∀ t, t ≠ 0 → s'.heads t = sHit.heads t) ∧
      s'.nodes = sHit.nodes ∧
      s'.sysAllocs = sHit.sysAllocs ∧
      s'.sysFrees = sHit.sysFrees ∧
      s'.sysFreedCells = sHit.sysFreedCells :=
  (allocate_one_pop_semantics intLayout 0 sHit).1 5 ⟨none, 0⟩ rfl rfl

/-- C3: deallocate(p, 1) pushes the cell onto the cache recorded in the
cell's own back-reference: that cache's head becomes the cell, every other
cache head (in particular the calling thread's, when it differs) is
untouched, and the outcome is the same whichever thread tid or tid' makes
the call (PoolAllocator.h lines 229-234 use only node->pool, never the
caller's thread_local pool). -/
theorem deallocate_one_routes_to_backref (L : Layout) (tid tid' : Nat)
    (s : State) (a : Addr) (nd : Node) (hn : s.nodes a = some nd) :
    ∃ s', deallocate L tid (some a) 1 s = some s' ∧
      s'.heads nd.pool = some a ∧
      (∀ t, t ≠ nd.pool → s'.heads t = s.heads t) ∧
      s'.nodes a = some ⟨s.heads nd.pool, nd.pool⟩ ∧
      (∀ b, b ≠ a → s'.nodes b = s.nodes b) ∧
      deallocate L tid' (some a) 1 s = deallocate L tid (some a) 1 s := by
  refine ⟨_, deallocate_one_push L tid s a nd hn, by simp, ?_, by simp, ?_,
    rfl⟩
  · intro t ht
    simp [ht]
  · intro b hb
    simp [hb]

/-- Concrete state for witnesses: the cell at address 3 was minted by
thread 1; threads 0 and 2 are other threads. -/
def sCell : State :=
  { s0 with nodes := fun a => if a = 3 then some ⟨none, 1⟩ else none }

theorem deallocate_one_routes_to_backref_witness :
    ∃ s', deallocate intLayout 0 (some 3) 1 sCell = some s' ∧
      s'.heads (Node.pool ⟨none, 1⟩) = some 3 ∧
      (∀ t, t ≠ Node.pool ⟨none, 1⟩ → s'.heads t = sCell.heads t) ∧
      s'.nodes 3 =
        some ⟨sCell.heads (Node.pool ⟨none, 1⟩), Node.pool ⟨none, 1⟩⟩ ∧
      (∀ b, b ≠ 3 → s'.nodes b = sCell.nodes b) ∧
      deallocate intLayout 2 (some 3) 1 sCell =
        deallocate intLayout 0 (some 3) 1 sCell :=
  deallocate_one_routes_to_backref intLayout 0 2 sCell 3 ⟨none, 1⟩ rfl

/-- C1: round-trip recycling.  On one thread, with no interference, an
allocate(1) returning p followed by deallocate(p, 1) followed by
allocate(1) returns the same storage address p: the freed cell is recycled
from the cache before the system allocator is consulted (PoolAllocator.h
lines 200-219 and 221-239).  The hypothesis is the reachable-state
invariant that the cell at the cache head, if any, is a live cell whose
back-reference is the calling thread's own pool. -/
theorem round_trip_recycling (L : Layout) (tid : Nat) (s : State)
    (h : headOwned s tid) :
    ∃ p s1 s2 s3,
      allocate L tid 1 s = some (p, s1) ∧
      deallocate L tid (some p) 1 s1 = some s2 ∧
      allocate L tid 1 s2 = some (p, s3) := by
  cases hh : s.heads tid with
  | some a =>
    obtain ⟨nd, hnd, hpool⟩ := h a hh
    exact ⟨a, _, _, _, allocate_one_hit L tid s a nd hh hnd,
      deallocate_one_push L tid _ a nd hnd,
      allocate_one_hit L tid _ a
        ⟨if nd.pool = tid then nd.next else s.heads nd.pool, nd.pool⟩
        (by simp [hpool]) (by simp)⟩
  | none =>
    exact ⟨s.nextFresh, _, _, _, allocate_one_miss L tid s hh,
      deallocate_one_push L tid _ s.nextFresh ⟨none, tid⟩ (by simp),
      allocate_one_hit L tid _ s.nextFresh ⟨s.heads tid, tid⟩
        (by simp) (by simp)⟩

theorem round_trip_recycling_witness :
    ∃ p s1 s2 s3,
      allocate intLayout 0 1 s0 = some (p, s1) ∧
      deallocate intLayout 0 (some p) 1 s1 = some s2 ∧
      allocate intLayout 0 1 s2 = some (p, s3) :=
  round_trip_recycling intLayout 0 s0 (fun a h => by simp [s0] at h)

/-- C7: a bulk pair is invisible to the caches.  For n > 1, allocate(n)
followed by deallocate of the returned block leaves every cache head and
every minted cell exactly as before (PoolAllocator.h lines 216-218 and
235-238 touch only the system allocator), so a subsequent allocate(1) on
any thread whose cache is non-empty pops the very same cell it would have
popped without the bulk pair. -/
theorem bulk_pair_cache_frame (L : Layout) (tid : Nat) (s : State) (n : Nat)
    (h : 1 < n) :
    ∃ p s1 s2,
      allocate L tid n s = some (p, s1) ∧
      deallocate L tid (some p) n s1 = some s2 ∧
      s2.heads = s.heads ∧
      s2.nodes = s.nodes ∧
      (∀ t a nd, s.heads t = some a → s.nodes a = some nd →
        Option.map Prod.fst (allocate L t 1 s2) =
          Option.map Prod.fst (allocate L t 1 s)) := by
  have hn1 : n ≠ 1 := Nat.ne_of_gt h
  have hn0 : n ≠ 0 := by omega
  refine ⟨s.nextFresh,
    { s with nextFresh := s.nextFresh + 1,
             sysAllocs := (s.nextFresh, n * L.sizeofNode) :: s.sysAllocs },
    { s with nextFresh := s.nextFresh + 1,
             sysAllocs := (s.nextFresh, n * L.sizeofNode) :: s.sysAllocs,
             sysFrees := (s.nextFresh, n * L.sizeofT) :: s.sysFrees },
    allocate_bulk L tid s n hn1,
    deallocate_bulk L tid _ s.nextFresh n hn0 hn1, rfl, rfl, ?_⟩
  intro t a nd hh hn
  rw [allocate_one_hit L t
      { s with nextFresh := s.nextFresh + 1,
               sysAllocs := (s.nextFresh, n * L.sizeofNode) :: s.sysAllocs,
               sysFrees := (s.nextFresh, n * L.sizeofT) :: s.sysFrees }
      a nd hh hn,
    allocate_one_hit L t s a nd hh hn]
  rfl

theorem bulk_pair_cache_frame_witness :
    ∃ p s1 s2,
      allocate intLayout 0 2 sHit = some (p, s1) ∧
      deallocate intLayout 0 (some p) 2 s1 = some s2 ∧
      s2.heads = sHit.heads ∧
      s2.nodes = sHit.nodes ∧
      (∀ t a nd, sHit.heads t = some a → sHit.nodes a = some nd →
        Option.map Prod.fst (allocate intLayout t 1 s2) =
          Option.map Prod.fst (allocate intLayout t 1 sHit)) :=
  bulk_pair_cache_frame intLayout 0 sHit 2 (by decide)

/-- C2 fails on the code: the bulk path's two sides use different per-cell
sizes.  For T = int on LP64 (sizeof(T) = 4, sizeof(Node) = 16), allocate(2)
requests 2 * sizeof(Node) = 32 bytes from operator new (PoolAllocator.h
line 218), while the matching deallocate releases the block with the sized
operator delete of 2 * sizeof(value_type) = 8 bytes (line 237): the byte
count handed to the system allocator on release differs from the byte
count requested on allocation. -/
theorem bulk_size_mismatch :
    ∃ p s1 s2,
      allocate intLayout 0 2 s0 = some (p, s1) ∧
      deallocate intLayout 0 (some p) 2 s1 = some s2 ∧
      s1.sysAllocs = [(p, 32)] ∧
      s2.sysFrees = [(p, 8)] ∧
      (32 : Nat) ≠ 8 := by
  exact ⟨0,
    { s0 with nextFresh := 1, sysAllocs := [(0, 32)] },
    { s0 with nextFresh := 1, sysAllocs := [(0, 32)], sysFrees := [(0, 8)] },
    rfl, rfl, rfl, rfl, by decide⟩

/-- Following the next links from a given pointer is deterministic: the
free list hanging from p is unique. -/
theorem chain_unique {s : State} {p : Option Addr} {l₁ : List Addr}
    (h₁ : Chain s p l₁) : ∀ {l₂ : List Addr}, Chain s p l₂ → l₁ = l₂ := by
  induction h₁ with
  | nil =>
    intro l₂ h₂
    cases h₂
    rfl
  | cons a nd l ha hrest ih =>
    intro l₂ h₂
    cases h₂ with
    | cons _ nd' l' ha' hrest' =>
      rw [ha] at ha'
      cases ha'
      rw [ih hrest']

/-- Any member of a free list is itself the head of a chain that is a
strictly shorter suffix of the list. -/
theorem chain_mem_suffix {s : State} {p : Option Addr} {l : List Addr}
    (hc : Chain s p l) :
    ∀ {a : Addr}, a ∈ l →
      ∃ l', Chain s (some a) (a :: l') ∧ l'.length < l.length := by
  induction hc with
  | nil =>
    intro a ha
    cases ha
  | cons b nd l hb hrest ih =>
    intro a ha
    rcases List.mem_cons.mp ha with rfl | ha
    · exact ⟨l, Chain.cons a nd l hb hrest, Nat.lt_succ_self _⟩
    · obtain ⟨l', hch, hlen⟩ := ih ha
      exact ⟨l', hch, Nat.lt_succ_of_lt hlen⟩

/-- A free list never contains the same cell twice: a duplicate would close
a cycle, and a cyclic chain admits no finite derivation. -/
theorem chain_nodup {s : State} {p : Option Addr} {l : List Addr}
    (hc : Chain s p l) : l.Nodup := by
  induction hc with
  | nil => exact List.nodup_nil
  | cons a nd l ha hrest ih =>
    refine List.nodup_cons.mpr ⟨?_, ih⟩
    intro hmem
    obtain ⟨l', hch, hlen⟩ := chain_mem_suffix hrest hmem
    have heq := chain_unique (Chain.cons a nd l ha hrest) hch
    have hll : l = l' := by
      injection heq
    rw [hll] at hlen
    exact absurd hlen (lt_irrefl _)

/-- A chain only looks at the nodes of its own members, so it transfers to
any state that agrees on them. -/
theorem chain_of_agree {s s' : State} {p : Option Addr} {l : List Addr}
    (hc : Chain s p l) (hag : ∀ b, b ∈ l → s'.nodes b = s.nodes b) :
    Chain s' p l := by
  induction hc with
  | nil => exact Chain.nil
  | cons a nd l ha hrest ih =>
    refine Chain.cons a nd l ?_ ?_
    · rw [hag a (List.mem_cons_self a l)]
      exact ha
    · exact ih fun b hb => hag b (List.mem_cons_of_mem a hb)

/-- Specification of the while loop of Pool::clear (PoolAllocator.h lines
180-187): with enough fuel it releases exactly the cells of the chain
hanging from the loop pointer, removes them from the heap, stores null into
the sentinel, and touches nothing else. -/
theorem clearLoop_spec (tid : Nat) :
    ∀ (l : List Addr) (p : Option Addr) (s : State) (fuel : Nat),
      s.heads tid = p → Chain s p l → l.length ≤ fuel →
      ∃ s', clearLoop tid fuel p s = some s' ∧
        s'.heads tid = none ∧
        s'.sysFreedCells = l.reverse ++ s.sysFreedCells ∧
        (∀ a, a ∈ l → s'.nodes a = none) ∧
        (∀ a, a ∉ l → s'.nodes a = s.nodes a) ∧
        (∀ t, t ≠ tid → s'.heads t = s.heads t) ∧
        s'.sysAllocs = s.sysAllocs ∧
        s'.sysFrees = s.sysFrees ∧
        s'.nextFresh = s.nextFresh := by
  intro l
  induction l with
  | nil =>
    intro p s fuel hhead hc _
    cases hc
    exact ⟨s, by cases fuel <;> rfl, hhead, by simp, by simp,
      fun _ _ => rfl, fun _ _ => rfl, rfl, rfl, rfl⟩
  | cons a l ih =>
    intro p s fuel hhead hc hf
    have hnodup := chain_nodup hc
    have hanotl : a ∉ l := (List.nodup_cons.mp hnodup).1
    cases hc with
    | cons _ nd _ ha hrest =>
      cases fuel with
      | zero => simp at hf
      | succ f =>
        have hf' : l.length ≤ f := by
          simpa using hf
        set s₁ : State :=
          { s with
            heads := fun t => if t = tid then nd.next else s.heads t,
            nodes := fun a' => if a' = a then none else s.nodes a',
            sysFreedCells := a :: s.sysFreedCells } with hs₁
        have hag : ∀ b, b ∈ l → s₁.nodes b = s.nodes b := by
          intro b hb
          have : b ≠ a := fun hba => hanotl (hba ▸ hb)
          simp [hs₁, this]
        obtain ⟨s', hrun, hh, hfreed, hmem, hout, hoth, hal, hfr, hnf⟩ :=
          ih nd.next s₁ f (by simp [hs₁]) (chain_of_agree hrest hag) hf'
        refine ⟨s', ?_, hh, ?_, ?_, ?_, ?_, hal, hfr, hnf⟩
        · show clearLoop tid (f + 1) (some a) s = some s'
          rw [clearLoop, ha]
          exact hrun
        · rw [hfreed]
          simp [hs₁]
        · intro b hb
          rcases List.mem_cons.mp hb with rfl | hb
          · rw [hout b hanotl]
            simp [hs₁]
          · exact hmem b hb
        · intro b hb
          rw [hout b fun hbl => hb (List.mem_cons_of_mem a hbl)]
          have hba : b ≠ a := fun hba => hb (hba ▸ List.mem_cons_self a l)
          simp [hs₁, hba]
        · intro t ht
          rw [hoth t ht]
          simp [hs₁, ht]

/-- C6: Pool::clear, and the Pool destructor which is a single call to it
(PoolAllocator.h lines 161-164 and 178-188), release to the system
allocator exactly the cells resident in the calling thread's free list at
that moment — every member of the list and no other cell — and leave the
cache empty; no other cache and no other system-allocator log is
touched. -/
theorem clear_frees_exactly (tid : Nat) (s : State) (l : List Addr)
    (fuel : Nat) (hc : Chain s (s.heads tid) l) (hf : l.length ≤ fuel) :
    poolTeardown fuel tid s = poolClear fuel tid s ∧
    ∃ s', poolClear fuel tid s = some s' ∧
      s'.heads tid = none ∧
      s'.sysFreedCells = l.reverse ++ s.sysFreedCells ∧
      (∀ a, a ∈ l → s'.nodes a = none) ∧
      (∀ a, a ∉ l → s'.nodes a = s.nodes a) ∧
      (∀ t, t ≠ tid → s'.heads t = s.heads t) ∧
      s'.sysAllocs = s.sysAllocs ∧
      s'.sysFrees = s.sysFrees :=
  ⟨rfl, by
    obtain ⟨s', hrun, hh, hfreed, hmem, hout, hoth, hal, hfr, _⟩ :=
      clearLoop_spec tid l (s.heads tid) s fuel rfl hc hf
    exact ⟨s', hrun, hh, hfreed, hmem, hout, hoth, hal, hfr⟩⟩

/-- Concrete state for the clear witness: thread 0's cache holds the chain
0 → 1, both cells minted by thread 0. -/
def sTwo : State :=
  { s0 with
    nodes := fun a =>
      if a = 0 then some ⟨some 1, 0⟩
      else if a = 1 then some ⟨none, 0⟩ else none
    heads := fun t => if t = 0 then some 0 else none }

theorem clear_frees_exactly_witness :
    poolTeardown 2 0 sTwo = poolClear 2 0 sTwo ∧
    ∃ s', poolClear 2 0 sTwo = some s' ∧
      s'.heads 0 = none ∧
      s'.sysFreedCells = [0, 1].reverse ++ sTwo.sysFreedCells ∧
      (∀ a, a ∈ [0, 1] → s'.nodes a = none) ∧
      (∀ a, a ∉ [0, 1] → s'.nodes a = sTwo.nodes a) ∧
      (∀ t, t ≠ 0 → s'.heads t = sTwo.heads t) ∧
      s'.sysAllocs = sTwo.sysAllocs ∧
      s'.sysFrees = sTwo.sysFrees :=
  clear_frees_exactly 0 sTwo [0, 1] 2
    (Chain.cons 0 ⟨some 1, 0⟩ [1] rfl
      (Chain.cons 1 ⟨none, 0⟩ [] rfl Chain.nil))
    (by decide)

/-!
## Fine-grained interleaving model for one cache

For the concurrency claim the atomic operations of one owning thread and
one remote pushing thread on a single cache are modelled at instruction
granularity, under sequential consistency (a subset of the executions the
C++ memory orders allow).

The owner runs the n == 1 hit path of allocate (PoolAllocator.h lines
205-209 plus the retry loop of Pool::compare_exchange, lines 171-176):
load the sentinel into node, evaluate the call argument node->next once,
then repeat single compare_exchange_weak attempts with that fixed desired
value, the expected reference (node) being refreshed with the observed
head on every failed attempt; on success the function returns node.

The pusher runs the n == 1 path of deallocate for its cell c
(PoolAllocator.h lines 231-233): store the loaded sentinel into c's next
field, then repeat compare_exchange_weak attempts whose expected reference
is c's next field (refreshed in memory on failure) and whose desired value
is c.
-/

/-- Instruction-level state: the sentinel, every cell's next field, the
owner's program counter and local variables (oNode is the variable node;
oDesired the once-evaluated argument node->next), and the pusher's program
counter. -/
structure FState where
  head : Option Addr
  nexts : Addr → Option Addr
  oPc : Nat
  oNode : Option Addr
  oDesired : Option Addr
  pPc : Nat

/-- One atomic step of the owning thread's allocate(1) hit path.
oPc 0: node = pool.load() (line 205); a null head would branch to the miss
path (lines 210-214), here a terminal counter value 4.
oPc 1: evaluate the argument node->next of the compare_exchange call
(line 208); this nonatomic read happens once, before any retry.
oPc 2: one compare_exchange_weak attempt (line 173): on success the head
is swung to the fixed desired value and the call returns (oPc 3); on
failure the expected variable node is reloaded from the observed head and
the loop retries.
oPc 3: done; the returned pointer is oNode. -/
def ownerStep (s : FState) : FState :=
  match s.oPc with
  | 0 =>
    match s.head with
    | some a => { s with oNode := some a, oPc := 1 }
    | none => { s with oNode := none, oPc := 4 }
  | 1 =>
    match s.oNode with
    | some a => { s with oDesired := s.nexts a, oPc := 2 }
    | none => s
  | 2 =>
    if s.head = s.oNode then
      { s with head := s.oDesired, oPc := 3 }
    else
      { s with oNode := s.head }
  | _ => s

/-- One atomic step of a remote thread's deallocate(p, 1) push of cell c.
pPc 0: node->next = node->pool->load() (line 232) — the loaded head is
stored into c's next field.
pPc 1: one compare_exchange_weak attempt (line 173) for line 233: the
expected reference is c's next field, so a failed attempt rewrites that
field with the observed head before the retry; on success the head is
swung to c and the call returns (pPc 2). -/
def pusherStep (c : Addr) (s : FState) : FState :=
  match s.pPc with
  | 0 =>
    { s with nexts := fun a => if a = c then s.head else s.nexts a,
             pPc := 1 }
  | 1 =>
    if s.head = s.nexts c then
      { s with head := some c, pPc := 2 }
    else
      { s with nexts := fun a => if a = c then s.head else s.nexts a }
  | _ => s

/-- Execute a schedule: true = one owner step, false = one pusher step. -/
def interleave (c : Addr) : List Bool → FState → FState
  | [], s => s
  | b :: rest, s =>
    interleave c rest (if b then ownerStep s else pusherStep c s)

/-- Initial fine-grained state: the cache holds the chain 0 → 1 (head is
cell 0, whose next is cell 1, whose next is null); the pusher is about to
free its cell 2, whose back-reference names this cache. -/
def fInit : FState :=
  { head := some 0
    nexts := fun a => if a = 0 then some 1 else none
    oPc := 0
    oNode := none
    oDesired := none
    pPc := 0 }

/-- The interleaving that exhibits the lost cell: the owner loads the head
(cell 0) and evaluates node->next (cell 1); the pusher then completes its
entire push of cell 2; the owner's first compare_exchange_weak attempt
fails (head is now 2, not 0) and reloads node := 2; its second attempt
succeeds, swinging the head to the stale desired value 1. -/
def lostRun : FState :=
  interleave 2 [true, true, false, false, true, true] fInit

/-- C9 fails on the code: under the interleaving of lostRun both calls
complete (owner returns, pusher's push committed), the allocate call
returns cell 2 — the cell the concurrent push had just linked in — and the
final free list is exactly [1] (head is cell 1 whose next is null).  Cell
0, which was resident in the cache throughout and was returned to nobody,
is in no list and is lost: its storage can never be recycled nor released.
The single-atomic-head retry loop therefore does not linearize a pop
against a concurrent push: the pop's desired value (the next link of the
originally loaded head) goes stale when a push lands between the load and
the successful compare-and-swap. -/
theorem pop_cas_retry_loses_cell :
    lostRun.oPc = 3 ∧
    lostRun.pPc = 2 ∧
    lostRun.oNode = some 2 ∧
    lostRun.head = some 1 ∧
    lostRun.nexts 1 = none ∧
    lostRun.head ≠ some 0 ∧
    lostRun.nexts 1 ≠ some 0 ∧
    lostRun.oNode ≠ some 0 := by
  refine ⟨rfl, rfl, rfl, rfl, rfl, ?_, ?_, ?_⟩ <;> decide

end PoolModel
